import Mathlib

/-!
Verification of the FoodAtHome ingredient-normalization and recipe-matching
pipeline.  Strings are modelled as lists of Unicode code points
(`List Nat`); the character-level operations mirror the JavaScript string
primitives used by the source (ASCII-faithful, which covers the whole
configuration vocabulary of the program).
-/

namespace FoodAtHome

/-- A string, modelled as its list of code points. -/
abbrev Str := List Nat

/-- `str s` is the code-point list of a Lean string literal. -/
def str (s : String) : Str := s.toList.map Char.toNat

/-- Whitespace test, mirroring the JS `\s` class / `trim` on the ASCII range. -/
def isSpaceN (c : Nat) : Bool :=
  decide (c = 32 ∨ c = 9 ∨ c = 10 ∨ c = 11 ∨ c = 12 ∨ c = 13)

/-- Alphabetic test, mirroring the JS regex `[a-zA-Z]`. -/
def isAlphaN (c : Nat) : Bool :=
  decide ((65 ≤ c ∧ c ≤ 90) ∨ (97 ≤ c ∧ c ≤ 122))

/-- Word-character test, mirroring the JS regex class `\w` = `[A-Za-z0-9_]`. -/
def isWordN (c : Nat) : Bool :=
  isAlphaN c || decide (48 ≤ c ∧ c ≤ 57) || decide (c = 95)

/-- Per-character lower-casing, mirroring JS `toLowerCase` on ASCII. -/
def toLowerN (c : Nat) : Nat :=
  if 65 ≤ c ∧ c ≤ 90 then c + 32 else c

/-- `s.toLowerCase()`. -/
def lowerN (s : Str) : Str := s.map toLowerN

/-- `s.trim()`: drop leading and trailing whitespace. -/
def trimN (s : Str) : Str :=
  ((s.dropWhile isSpaceN).reverse.dropWhile isSpaceN).reverse

/-- `s.replace(/[^\w\s]/g, '')`: keep only word characters and whitespace. -/
def stripPunct (s : Str) : Str :=
  s.filter (fun c => isWordN c || isSpaceN c)

/-- Helper for `collapseSp`: `inRun` records whether the previous character
was part of a whitespace run that has already emitted its single space. -/
def collapseSpGo (inRun : Bool) : Str → Str
  | [] => []
  | c :: rest =>
    if isSpaceN c then
      if inRun then collapseSpGo true rest
      else 32 :: collapseSpGo true rest
    else c :: collapseSpGo false rest

/-- `s.replace(/\s+/g, ' ')`: collapse every whitespace run to one space. -/
def collapseSp (s : Str) : Str := collapseSpGo false s

/-- `needle` occurs at the start of `hay` (JS `startsWith`). -/
def headMatch : Str → Str → Bool
  | [], _ => true
  | _ :: _, [] => false
  | a :: as', b :: bs => decide (a = b) && headMatch as' bs

/-- `hay.includes(needle)`: contiguous-substring test. -/
def containsSeq (needle : Str) : Str → Bool
  | [] => headMatch needle []
  | c :: rest => headMatch needle (c :: rest) || containsSeq needle rest

/-!
## Ingredient Normalizer
Embedded from `netlify/functions/analyze-ingredients.js`, `normalizeIngredient`
(the `src/lib/claudeVision.ts` copy differs only by three extra table rows).
-/

/-- The cleaning phase of `normalizeIngredient`:
`item.toLowerCase().trim().replace(/[^\w\s]/g, '').replace(/\s+/g, ' ')`. -/
def cleanIngredient (item : Str) : Str :=
  collapseSp (stripPunct (trimN (lowerN item)))

/-- The ordered `normalizations` table of `normalizeIngredient`
(JS object-literal insertion order). -/
def normalizations : List (Str × Str) :=
  [ (str "tomato", str "tomatoes"), (str "onion", str "onions"),
    (str "carrot", str "carrots"),
    (str "apple", str "apples"), (str "orange", str "oranges"),
    (str "lemon", str "lemons"), (str "lime", str "limes"),
    (str "potato", str "potatoes"), (str "yams", str "yam"),
    (str "vegetable oil", str "olive oil"), (str "cooking oil", str "olive oil"),
    (str "leafy greens", str "lettuce"), (str "salad greens", str "lettuce"),
    (str "bell pepper", str "peppers"), (str "green pepper", str "peppers"),
    (str "red pepper", str "peppers"),
    (str "cheddar cheese", str "cheese"), (str "mozzarella cheese", str "cheese") ]

/-- The rule loop of `normalizeIngredient`: the first table row whose key
equals the cleaned string or occurs in it as a substring rewrites it to the
row's value (`break` after the first hit). -/
def applyTable (normalized : Str) : Str :=
  match normalizations.find? (fun kv => decide (normalized = kv.1) || containsSeq kv.1 normalized) with
  | some kv => kv.2
  | none => normalized

/-- `normalizeIngredient(item)` from `analyze-ingredients.js`. -/
def normalizeIngredient (item : Str) : Str :=
  applyTable (cleanIngredient item)

/-!
## Ingredient Validator
Embedded from `netlify/functions/analyze-ingredients.js`, `isValidIngredient`
(the only copy that takes dietary restrictions).
-/

/-- The fixed `blockedTerms` list of `isValidIngredient`. -/
def blockedTerms : List Str :=
  [ str "fruit", str "fruits", str "vegetables", str "veggies",
    str "leafy greens", str "condiments",
    str "sauces", str "dressings", str "grains", str "nuts", str "herbs",
    str "spices", str "oils",
    str "cereals", str "legumes", str "dairy", str "produce", str "meat",
    str "seafood", str "beverages",
    str "drinks", str "juice", str "root vegetables", str "oil",
    str "seasonings", str "cereal",
    str "bowls", str "baskets", str "containers", str "bottle", str "jar",
    str "package", str "can", str "box",
    str "various", str "some", str "many", str "different", str "other",
    str "items", str "food", str "ingredients" ]

/-- The `veganBlocked` substring list. -/
def veganBlocked : List Str :=
  [ str "milk", str "cheese", str "butter", str "yogurt", str "cream",
    str "eggs", str "honey", str "meat", str "chicken", str "beef",
    str "pork", str "fish", str "salmon", str "tuna", str "bacon" ]

/-- The `vegetarianBlocked` substring list. -/
def vegetarianBlocked : List Str :=
  [ str "meat", str "chicken", str "beef", str "pork", str "fish",
    str "salmon", str "tuna", str "bacon", str "ham", str "turkey" ]

/-- The `glutenBlocked` substring list. -/
def glutenBlocked : List Str :=
  [ str "bread", str "pasta", str "flour", str "wheat", str "barley",
    str "rye", str "soy sauce" ]

/-- `isValidIngredient(item, dietaryRestrictions)` from
`analyze-ingredients.js`.  A `none`/empty restriction string is falsy in JS,
so the dietary block is skipped for it. -/
def isValidIngredient (item : Str) (dietaryRestrictions : Option Str) : Bool :=
  let itemLower := trimN (lowerN item)
  if decide (item.length < 2) || !(item.any isAlphaN) then false
  else if blockedTerms.any (fun b => decide (itemLower = b)) then false
  else
    match dietaryRestrictions with
    | none => true
    | some [] => true -- `if (dietaryRestrictions)`: the empty string is falsy
    | some r =>
        let restrictions := lowerN r
        if containsSeq (str "vegan") restrictions &&
            veganBlocked.any (fun blocked => containsSeq blocked itemLower) then false
        else if !containsSeq (str "vegan") restrictions &&
            containsSeq (str "vegetarian") restrictions &&
            vegetarianBlocked.any (fun blocked => containsSeq blocked itemLower) then false
        else if containsSeq (str "gluten-free") restrictions &&
            glutenBlocked.any (fun blocked => containsSeq blocked itemLower) then false
        else true

/-- The Validator as the claim words it: rejection is the disjunction of the
length/alphabetic test, the exact blocklist test on the lowercased trimmed
form, and the three dietary substring tests ("vegetarian" only applies when
"vegan" is absent, "gluten-free" applies independently). -/
def isValidSpec (ingredient : Str) (dietaryRestrictions : Option Str) : Bool :=
  let itemLower := trimN (lowerN ingredient)
  let hasR (key : String) : Bool :=
    match dietaryRestrictions with
    | some r => containsSeq (str key) (lowerN r)
    | none => false
  !(decide (ingredient.length < 2) || !(ingredient.any isAlphaN)
    || blockedTerms.any (fun b => decide (itemLower = b))
    || (hasR "vegan" && veganBlocked.any (fun b => containsSeq b itemLower))
    || (!hasR "vegan" && hasR "vegetarian" &&
        vegetarianBlocked.any (fun b => containsSeq b itemLower))
    || (hasR "gluten-free" && glutenBlocked.any (fun b => containsSeq b itemLower)))

/-!
## Ingredient Deduplicator
Embedded from `netlify/functions/analyze-ingredients.js`,
`deduplicateIngredients`.  The JS `filter` callback mutates the closed-over
`seen` set, so the traversal is sequential; `seen` is modelled as the list of
normalized forms kept so far (only membership is consulted).
-/

/-- The fixed `duplicateGroups` table. -/
def duplicateGroups : List (List Str) :=
  [ [str "lemon", str "lemons"], [str "lime", str "limes"],
    [str "fruit", str "fruits"],
    [str "oil", str "oils", str "olive oil"], [str "milk", str "milk."],
    [str "juice", str "juices"] ]

/-- Sequential traversal of `deduplicateIngredients`' filter. -/
def dedupGo (seen : List Str) : List Str → List Str
  | [] => []
  | ingredient :: rest =>
    let normalized := trimN (lowerN ingredient)
    if seen.any (fun s => decide (s = normalized)) then dedupGo seen rest
    else if duplicateGroups.any (fun group =>
        group.any (fun m => decide (m = normalized)) &&
        group.any (fun m => seen.any (fun s => decide (s = m)))) then
      dedupGo seen rest
    else ingredient :: dedupGo (normalized :: seen) rest

/-- `deduplicateIngredients(ingredients)` from `analyze-ingredients.js`. -/
def deduplicateIngredients (ingredients : List Str) : List Str :=
  dedupGo [] ingredients

/-- The Deduplicator as the claim words it: an element is dropped exactly
when its normalized form was already seen or some member of an equivalence
group containing it was already seen; `seen` collects the normalized forms
of kept elements. -/
def dedupSpecGo (seen : List Str) : List Str → List Str
  | [] => []
  | x :: rest =>
    let normalized := trimN (lowerN x)
    if decide (normalized ∈ seen ∨
        ∃ g ∈ duplicateGroups, normalized ∈ g ∧ ∃ m ∈ g, m ∈ seen) then
      dedupSpecGo seen rest
    else x :: dedupSpecGo (normalized :: seen) rest

/-!
## JSON values and `JSON.parse`
Runtime JSON values, and a parser modelling `JSON.parse` on the fragment the
program exercises (objects, arrays, escape-free strings, integers, literals).
JS truthiness and property access on these values are modelled explicitly.
-/

/-- A runtime JSON value. -/
inductive JValue where
  | jnull
  | jbool (b : Bool)
  | jnum (n : Int)
  | jstr (s : Str)
  | jarr (xs : List JValue)
  | jobj (fields : List (Str × JValue))
deriving Repr

/-- JS truthiness of a JSON value. -/
def truthy : JValue → Bool
  | .jnull => false
  | .jbool b => b
  | .jnum n => decide (n ≠ 0)
  | .jstr s => !s.isEmpty
  | .jarr _ => true
  | .jobj _ => true

/-- Property access `v.name`: `none` when the property is absent (JS
`undefined`) or the value is not an object.  `JSON.parse` assigns duplicate
keys in textual order, so the last binding wins. -/
def getField (v : JValue) (name : Str) : Option JValue :=
  match v with
  | .jobj fields =>
    (fields.reverse.find? (fun f => decide (f.1 = name))).map (fun f => f.2)
  | _ => none

/-- JSON insignificant whitespace. -/
def isJsonWs (c : Nat) : Bool := decide (c = 32 ∨ c = 9 ∨ c = 10 ∨ c = 13)

/-- ASCII digit. -/
def isDigitN (c : Nat) : Bool := decide (48 ≤ c ∧ c ≤ 57)

/-- Parse a string body after the opening quote; escapes are out of the
modelled fragment and make the parse fail. -/
def parseStringBody (s : Str) : Option (JValue × Str) :=
  let body := s.takeWhile (fun c => decide (c ≠ 34 ∧ c ≠ 92))
  match s.drop body.length with
  | 34 :: rest => some (.jstr body, rest)
  | _ => none

/-- Parse an integer literal (optionally signed). -/
def parseNumber (s : Str) : Option (JValue × Str) :=
  let (neg, s') := match s with
    | 45 :: rest => (true, rest)
    | _ => (false, s)
  let digits := s'.takeWhile isDigitN
  if digits.isEmpty then none
  else
    let n : Int := digits.foldl (fun acc d => acc * 10 + (Int.ofNat d - 48)) 0
    some (.jnum (if neg then -n else n), s'.drop digits.length)

mutual
/-- Parse one JSON value from the front of the input (fuel-bounded). -/
def parseValue : Nat → Str → Option (JValue × Str)
  | 0, _ => none
  | fuel + 1, s =>
    match s.dropWhile isJsonWs with
    | [] => none
    | c :: rest =>
      if c = 110 then -- 'n'
        if headMatch (str "ull") rest then some (.jnull, rest.drop 3) else none
      else if c = 116 then -- 't'
        if headMatch (str "rue") rest then some (.jbool true, rest.drop 3) else none
      else if c = 102 then -- 'f'
        if headMatch (str "alse") rest then some (.jbool false, rest.drop 4) else none
      else if c = 34 then parseStringBody rest -- '"'
      else if c = 91 then parseArrItems fuel (rest.dropWhile isJsonWs) -- '['
      else if c = 123 then parseObjItems fuel (rest.dropWhile isJsonWs) -- '{'
      else if c = 45 || isDigitN c then parseNumber (c :: rest)
      else none

/-- Parse array items after `[` (the first branch also accepts `]`). -/
def parseArrItems : Nat → Str → Option (JValue × Str)
  | 0, _ => none
  | fuel + 1, s =>
    match s with
    | 93 :: rest => some (.jarr [], rest) -- ']'
    | _ =>
      match parseValue fuel s with
      | none => none
      | some (v, rest) =>
        match rest.dropWhile isJsonWs with
        | 44 :: rest' => -- ','
          (match parseArrItems fuel (rest'.dropWhile isJsonWs) with
           | some (.jarr xs, rest'') => some (.jarr (v :: xs), rest'')
           | _ => none)
        | 93 :: rest' => some (.jarr [v], rest') -- ']'
        | _ => none

/-- Parse object members after `{` (the first branch also accepts `}`). -/
def parseObjItems : Nat → Str → Option (JValue × Str)
  | 0, _ => none
  | fuel + 1, s =>
    match s with
    | 125 :: rest => some (.jobj [], rest) -- '}'
    | 34 :: rest => -- '"' opening a member name
      (match parseStringBody rest with
       | some (.jstr key, rest') =>
         (match rest'.dropWhile isJsonWs with
          | 58 :: rest'' => -- ':'
            (match parseValue fuel rest'' with
             | none => none
             | some (v, rest3) =>
               match rest3.dropWhile isJsonWs with
               | 44 :: rest4 => -- ','
                 (match parseObjItems fuel (rest4.dropWhile isJsonWs) with
                  | some (.jobj fs, rest5) => some (.jobj ((key, v) :: fs), rest5)
                  | _ => none)
               | 125 :: rest4 => some (.jobj [(key, v)], rest4) -- '}'
               | _ => none)
          | _ => none)
       | _ => none)
    | _ => none
end

/-- `JSON.parse(s)`: a full-input parse (trailing whitespace allowed).
The fuel `2 * s.length + 4` dominates the recursion depth. -/
def jsonParse (s : Str) : Option JValue :=
  match parseValue (2 * s.length + 4) s with
  | some (v, rest) => if rest.dropWhile isJsonWs = [] then some v else none
  | none => none

/-- The span selected by the regex `/\{[\s\S]*\}/`: from the first `{` to the
last `}`, provided the `}` comes after the `{`. -/
def findSpan (s : Str) : Option Str :=
  match s.findIdx? (fun c => decide (c = 123)), s.reverse.findIdx? (fun c => decide (c = 125)) with
  | some i, some rj =>
    let j := s.length - 1 - rj
    if i < j then some ((s.drop i).take (j - i + 1)) else none
  | _, _ => none

/-!
## Vision Response Parser
Embedded from `netlify/functions/analyze-ingredients.js`,
`parseIngredientsFromResponse`.  A thrown JS exception inside the `try`
block is modelled as `none`; the surrounding `catch` then degrades to the
comma-split fallback.
-/

/-- Reading `item.name` inside the confidence filter.
`none` models a thrown `TypeError` (`item` is `null`, or `item.name` is
truthy but not a string so `.toLowerCase()` throws); `some none` models a
falsy/absent name, which the filter simply drops; `some (some s)` is a
truthy string name. -/
def entryName (item : JValue) : Option (Option Str) :=
  match item with
  | .jnull => none
  | .jobj _ =>
    (match getField item (str "name") with
     | none => some none
     | some nv =>
       if truthy nv then
         match nv with
         | .jstr s => some (some s)
         | _ => none
       else some none)
  | _ => some none

/-- `array.filter(item => item.name && isValidIngredient(...)).forEach(item =>
allItems.push(normalizeIngredient(...)))` over one confidence array. -/
def processEntries (dietaryRestrictions : Option Str) : List JValue → Option (List Str)
  | [] => some []
  | item :: rest =>
    match entryName item with
    | none => none
    | some none => processEntries dietaryRestrictions rest
    | some (some s) =>
      let nm := trimN (lowerN s)
      match processEntries dietaryRestrictions rest with
      | none => none
      | some tail =>
        if isValidIngredient nm dietaryRestrictions then
          some (normalizeIngredient nm :: tail)
        else some tail

/-- One `if (jsonData.X && Array.isArray(jsonData.X)) { ... }` block: a
missing, falsy or non-array field contributes nothing. -/
def processConfidenceField (dietaryRestrictions : Option Str) : Option JValue → Option (List Str)
  | some (.jarr entries) => processEntries dietaryRestrictions entries
  | _ => some []

/-- The structured branch of `parseIngredientsFromResponse`: collect from
`high_confidence` then `medium_confidence`; `none` models a thrown error. -/
def collectConfidenceItems (jsonData : JValue) (dietaryRestrictions : Option Str) :
    Option (List Str) :=
  match processConfidenceField dietaryRestrictions (getField jsonData (str "high_confidence")) with
  | none => none
  | some hi =>
    match processConfidenceField dietaryRestrictions (getField jsonData (str "medium_confidence")) with
    | none => none
    | some mid => some (hi ++ mid)

/-- `s.split(',')`, mirroring JS `String.split` on a single-character
separator (`"".split(',') == [""]`). -/
def splitComma : Str → List Str
  | [] => [[]]
  | c :: rest =>
    if c = 44 then [] :: splitComma rest
    else
      match splitComma rest with
      | t :: ts => (c :: t) :: ts
      | [] => [[c]]

/-- First-occurrence-wins exact deduplication (JS `Set` iteration order). -/
def uniqFirst : List Str → List Str
  | [] => []
  | x :: xs => x :: (uniqFirst xs).filter (fun y => decide (y ≠ x))

/-- The comma-separated fallback of `parseIngredientsFromResponse`. -/
def fallbackParse (textContent : Str) (dietaryRestrictions : Option Str) : List Str :=
  (((splitComma (lowerN textContent)).map trimN).filter
      (fun item => !item.isEmpty && isValidIngredient item dietaryRestrictions)).map
    normalizeIngredient

/-- `parseIngredientsFromResponse(textContent, dietaryRestrictions)` from
`analyze-ingredients.js`: JSON-span attempt first, any failure (no span,
parse error, or an exception while reading the arrays) is caught and handled
by the fallback. -/
def parseIngredientsFromResponse (textContent : Str) (dietaryRestrictions : Option Str) :
    List Str :=
  match findSpan textContent with
  | none => fallbackParse textContent dietaryRestrictions
  | some span =>
    match jsonParse span with
    | none => fallbackParse textContent dietaryRestrictions
    | some jsonData =>
      match collectConfidenceItems jsonData dietaryRestrictions with
      | none => fallbackParse textContent dietaryRestrictions
      | some allItems => allItems

/-- Modelled from the spec: the fallback result as the claim words it —
lower-case the whole text, split on commas, trim each token, drop empties,
keep only tokens passing the Validator, normalize survivors, and deduplicate
by normalized form with first occurrence winning. -/
def specFallbackDedup (rawText : Str) (dietaryRestrictions : Option Str) : List Str :=
  uniqFirst
    ((((((splitComma (lowerN rawText))).map trimN).filter
        (fun item => !item.isEmpty)).filter
      (fun item => isValidIngredient item dietaryRestrictions)).map normalizeIngredient)

/-- Modelled from the spec: the claim's fallback pipeline without the final
deduplication — lower-case, split on commas, trim each token, drop empties,
keep Validator-passing tokens, normalize survivors. -/
def specFallbackPlain (rawText : Str) (dietaryRestrictions : Option Str) : List Str :=
  ((((splitComma (lowerN rawText)).map trimN).filter
      (fun item => !item.isEmpty)).filter
    (fun item => isValidIngredient item dietaryRestrictions)).map normalizeIngredient

/-!
## Recipe Matcher / Missing-Ingredient Scorer
Embedded from `src/components/RecipeDiscovery.tsx`
(`getAdaptiveThreshold`, `convertRecipeToWithMissing`, and the
filter/sort block of `generateRecipes`).  Only the fields the matcher
touches are modelled; `rid` stands for the rest of a recipe's payload so
that ordering (stability) is observable.
-/

/-- A generated recipe as seen by `RecipeDiscovery` (ingredient phrases
plus an opaque identity for the remaining fields). -/
structure DiscoveryRecipe where
  rid : Nat
  ingredients : List Str
deriving Repr, DecidableEq

/-- A recipe decorated with its missing-ingredient information. -/
structure RecipeWithMissing where
  rid : Nat
  ingredients : List Str
  missing_count : Nat
  missing_ingredients : List Str
deriving Repr, DecidableEq

/-- The symmetric case-insensitive substring test used inside
`convertRecipeToWithMissing`: some available item contains the recipe
ingredient or vice versa. -/
def ingredientCovered (availableIngredients : List Str) (ingredient : Str) : Bool :=
  availableIngredients.any (fun available =>
    containsSeq (lowerN ingredient) (lowerN available) ||
    containsSeq (lowerN available) (lowerN ingredient))

/-- `convertRecipeToWithMissing(recipe, availableIngredients)`. -/
def convertRecipeToWithMissing (recipe : DiscoveryRecipe)
    (availableIngredients : List Str) : RecipeWithMissing :=
  let missing := recipe.ingredients.filter
    (fun ingredient => !ingredientCovered availableIngredients ingredient)
  { rid := recipe.rid
    ingredients := recipe.ingredients
    missing_count := missing.length
    missing_ingredients := missing }

/-- `getAdaptiveThreshold(pantrySize)` from `RecipeDiscovery.tsx`. -/
def getAdaptiveThreshold (pantrySize : Nat) : Nat :=
  if pantrySize ≤ 3 then min 3 (pantrySize + 2)
  else if pantrySize ≤ 6 then 2
  else 2

/-- The comparison relation of the JS sort
`(a, b) => a.missing_count - b.missing_count`. -/
def missingLe (a b : RecipeWithMissing) : Prop := a.missing_count ≤ b.missing_count

instance : DecidableRel missingLe := fun _ _ => Nat.decLe _ _

/-- The convert/filter/sort block of `generateRecipes` in
`RecipeDiscovery.tsx`.  `Array.prototype.sort` is stable, which
`List.insertionSort` with a non-strict relation reproduces. -/
def generateRecipeSuggestions (recipes : List DiscoveryRecipe)
    (ingredients : List Str) : List RecipeWithMissing :=
  let maxMissing := getAdaptiveThreshold ingredients.length
  List.insertionSort missingLe
    ((recipes.map (fun r => convertRecipeToWithMissing r ingredients)).filter
      (fun r => decide (r.missing_count ≤ maxMissing)))

/-!
## Recipe Response Parser
Embedded from `src/lib/claudeRecipeGeneration.ts`, `parseRecipeResponse`,
taking the joined text content as input.  Its `id` field
(`generated_${Date.now()}_${index}`) is nondeterministic wall-clock data and
is not part of the value model.  A thrown error (re-thrown by the calling
`catch` as the malformed-response failure) is modelled as `none`.
-/

/-- A coerced recipe.  Fields defaulted through JS `||` keep whatever truthy
runtime value was present, hence `JValue`-typed fields. -/
structure GeneratedRecipe where
  title : JValue
  description : JValue
  ingredients : List JValue
  instructions : List JValue
  prep_time : Int
  cook_time : Int
  servings : Int
  cuisine : List JValue
  dietary_tags : List JValue
  difficulty : Str
  tips : Option (List JValue)
  variations : Option (List JValue)
deriving Repr

/-- `recipe.f || default`. -/
def jsOrDefault (fv : Option JValue) (d : JValue) : JValue :=
  match fv with
  | some v => if truthy v then v else d
  | none => d

/-- `Array.isArray(recipe.f) ? recipe.f : []`. -/
def jsArrayOr (fv : Option JValue) (d : List JValue) : List JValue :=
  match fv with
  | some (.jarr xs) => xs
  | _ => d

/-- `typeof recipe.f === 'number' ? recipe.f : d`. -/
def jsNumOr (fv : Option JValue) (d : Int) : Int :=
  match fv with
  | some (.jnum n) => n
  | _ => d

/-- Coercion of one entry of the `recipes` array.  `none` models the
`TypeError` thrown by property access on a `null` entry; every other value
(object or primitive) coerces, with absent properties reading as
`undefined`. -/
def coerceRecipe (recipe : JValue) : Option GeneratedRecipe :=
  match recipe with
  | .jnull => none
  | _ => some
    { title := jsOrDefault (getField recipe (str "title")) (.jstr (str "Untitled Recipe"))
      description := jsOrDefault (getField recipe (str "description")) (.jstr (str ""))
      ingredients := jsArrayOr (getField recipe (str "ingredients")) []
      instructions := jsArrayOr (getField recipe (str "instructions")) []
      prep_time := jsNumOr (getField recipe (str "prep_time")) 15
      cook_time := jsNumOr (getField recipe (str "cook_time")) 30
      servings := jsNumOr (getField recipe (str "servings")) 4
      cuisine := jsArrayOr (getField recipe (str "cuisine")) [.jstr (str "International")]
      dietary_tags := jsArrayOr (getField recipe (str "dietary_tags")) []
      difficulty :=
        match getField recipe (str "difficulty") with
        | some (.jstr s) =>
          if decide (s = str "easy") || decide (s = str "medium") || decide (s = str "hard")
          then s else str "medium"
        | _ => str "medium"
      tips :=
        match getField recipe (str "tips") with
        | some (.jarr xs) => some xs
        | _ => none
      variations :=
        match getField recipe (str "variations") with
        | some (.jarr xs) => some xs
        | _ => none }

/-- `recipes.map(coercion)`, propagating a thrown `TypeError`. -/
def coerceRecipes : List JValue → Option (List GeneratedRecipe)
  | [] => some []
  | r :: rest =>
    match coerceRecipe r with
    | none => none
    | some g =>
      match coerceRecipes rest with
      | none => none
      | some tail => some (g :: tail)

/-- `parseRecipeResponse` from `claudeRecipeGeneration.ts` on the joined
text content; `none` is the `MalformedRecipeResponse` failure surfaced by
its catch-and-rethrow. -/
def parseRecipeResponse (textContent : Str) : Option (List GeneratedRecipe) :=
  match findSpan textContent with
  | none => none
  | some span =>
    match jsonParse span with
    | none => none
    | some parsedData =>
      match getField parsedData (str "recipes") with
      | some (.jarr rs) => coerceRecipes rs
      | _ => none

/-!
## analyze-ingredients handler: final ingredient assembly
Embedded from the tail of `exports.handler` in `analyze-ingredients.js`:
the per-image parse results are accumulated into a JS `Set` (first-seen
order), deduplicated, merged with the assumed staples through another
`Set`, and sorted with the default (code-unit lexicographic) comparator.
-/

/-- The `assumedStaples` list. -/
def assumedStaples : List Str :=
  [str "salt", str "pepper", str "olive oil", str "water"]

/-- JS default string comparison `a <= b` (code-unit lexicographic). -/
def lexLe : Str → Str → Bool
  | [], _ => true
  | _ :: _, [] => false
  | a :: as', b :: bs => if a < b then true else if b < a then false else lexLe as' bs

/-- `lexLe` as a relation for sorting. -/
def lexLeP (a b : Str) : Prop := lexLe a b = true

instance : DecidableRel lexLeP := fun a b => instDecidableEqBool (lexLe a b) true

/-- The final assembly: `Array.from(allIngredients)` → `deduplicateIngredients`
→ `[...new Set([...result, ...assumedStaples])].sort()`.  `detected` is the
concatenation, in processing order, of the per-image parse results. -/
def handlerIngredients (detected : List Str) : List Str :=
  let result := deduplicateIngredients (uniqFirst detected)
  List.insertionSort lexLeP (uniqFirst (result ++ assumedStaples))

/-!
## Substring machinery
-/

theorem headMatch_iff (p l : Str) : headMatch p l = true ↔ p <+: l := by
  induction p generalizing l with
  | nil => simp [headMatch]
  | cons a as ih =>
    cases l with
    | nil => simp [headMatch]
    | cons b bs => simp [headMatch, ih, List.cons_prefix_cons]

theorem containsSeq_iff (p l : Str) : containsSeq p l = true ↔ p <:+: l := by
  induction l with
  | nil =>
    simp only [containsSeq, headMatch_iff, List.infix_nil]
    exact ⟨fun h => List.prefix_nil.mp h, fun h => h ▸ List.nil_prefix⟩
  | cons c rest ih =>
    simp [containsSeq, headMatch_iff, ih, List.infix_cons_iff]

/-!
## Claim C2: adaptive threshold
-/

/-- C2: `getAdaptiveThreshold` is total on `Nat` and returns
`min 3 (pantrySize + 2)` for `pantrySize ≤ 3` and `2` otherwise; in
particular it maps 0 ↦ 2, 1 ↦ 3, 2 ↦ 3, 3 ↦ 3, 4 ↦ 2 and 10 ↦ 2. -/
theorem adaptiveThreshold_spec :
    (∀ pantrySize : Nat,
      getAdaptiveThreshold pantrySize =
        if pantrySize ≤ 3 then min 3 (pantrySize + 2) else 2)
    ∧ getAdaptiveThreshold 0 = 2 ∧ getAdaptiveThreshold 1 = 3
    ∧ getAdaptiveThreshold 2 = 3 ∧ getAdaptiveThreshold 3 = 3
    ∧ getAdaptiveThreshold 4 = 2 ∧ getAdaptiveThreshold 10 = 2 := by
  refine ⟨fun n => ?_, by decide, by decide, by decide, by decide, by decide, by decide⟩
  by_cases h : n ≤ 3 <;> simp [getAdaptiveThreshold, h]

/-!
## Claim C3: missing-ingredient scoring
-/

/-- C3: `convertRecipeToWithMissing` marks a recipe ingredient available
exactly when some available item passes the symmetric case-insensitive
substring test; `missing_ingredients` is the ordered sublist of recipe
ingredients failing it against every available item and `missing_count`
is its length; on the claim's example the missing list is `["garlic"]`. -/
theorem scoreMissing_spec :
    (∀ (available : List Str) (ingredient : Str),
      ingredientCovered available ingredient = true ↔
        ∃ a ∈ available,
          lowerN ingredient <:+: lowerN a ∨ lowerN a <:+: lowerN ingredient)
    ∧ (∀ (recipe : DiscoveryRecipe) (available : List Str),
        (convertRecipeToWithMissing recipe available).missing_ingredients =
          recipe.ingredients.filter
            (fun ingredient => !ingredientCovered available ingredient)
        ∧ (convertRecipeToWithMissing recipe available).missing_count =
            (convertRecipeToWithMissing recipe available).missing_ingredients.length)
    ∧ (convertRecipeToWithMissing
        ⟨0, [str "tomatoes", str "garlic", str "olive oil"]⟩
        [str "tomatoes", str "onions", str "olive oil"]).missing_ingredients
      = [str "garlic"]
    ∧ (convertRecipeToWithMissing
        ⟨0, [str "tomatoes", str "garlic", str "olive oil"]⟩
        [str "tomatoes", str "onions", str "olive oil"]).missing_count = 1 := by
  refine ⟨fun available ingredient => ?_, fun recipe available => ⟨rfl, rfl⟩,
    by decide, by decide⟩
  simp [ingredientCovered, List.any_eq_true, containsSeq_iff]

/-!
## Claim C4: ranked recipe suggestions
-/

theorem filter_count_orderedInsert (c : Nat) (b : RecipeWithMissing)
    (l : List RecipeWithMissing) :
    (List.orderedInsert missingLe b l).filter (fun x => decide (x.missing_count = c)) =
      if b.missing_count = c then
        b :: l.filter (fun x => decide (x.missing_count = c))
      else l.filter (fun x => decide (x.missing_count = c)) := by
  induction l with
  | nil =>
    by_cases h : b.missing_count = c <;> simp [List.orderedInsert, h]
  | cons y ys ih =>
    by_cases hr : missingLe b y
    · rw [List.orderedInsert_of_le _ _ hr]
      by_cases h : b.missing_count = c <;> simp [h]
    · have hlt : y.missing_count < b.missing_count := by
        simpa [missingLe, Nat.not_le] using hr
      simp only [List.orderedInsert, if_neg hr]
      by_cases hb : b.missing_count = c
      · have hy : ¬ y.missing_count = c := by omega
        simp [hy, ih, hb]
      · by_cases hy : y.missing_count = c <;> simp [hy, ih, hb]

theorem filter_count_insertionSort (c : Nat) (l : List RecipeWithMissing) :
    (List.insertionSort missingLe l).filter (fun x => decide (x.missing_count = c)) =
      l.filter (fun x => decide (x.missing_count = c)) := by
  induction l with
  | nil => rfl
  | cons a l ih =>
    rw [List.insertionSort, filter_count_orderedInsert]
    by_cases h : a.missing_count = c <;> simp [h, ih]

/-- C4: the ranked output is exactly the candidates whose `missing_count` is
at most the adaptive threshold, sorted ascending by `missing_count` with ties
in input order: it is a permutation of the filtered candidate list, sorted
under `missingLe`, and for every count value the sublist with that count
equals the filtered candidates' sublist in input order (stability).  On the
claim's example only the first recipe survives. -/
theorem rankedSuggestions_spec :
    (∀ (recipes : List DiscoveryRecipe) (ingredients : List Str),
      List.Sorted missingLe (generateRecipeSuggestions recipes ingredients)
      ∧ (generateRecipeSuggestions recipes ingredients).Perm
          ((recipes.map (fun r => convertRecipeToWithMissing r ingredients)).filter
            (fun r => decide (r.missing_count ≤ getAdaptiveThreshold ingredients.length)))
      ∧ (∀ c : Nat,
          (generateRecipeSuggestions recipes ingredients).filter
              (fun x => decide (x.missing_count = c)) =
            ((recipes.map (fun r => convertRecipeToWithMissing r ingredients)).filter
                (fun r => decide (r.missing_count ≤ getAdaptiveThreshold ingredients.length))).filter
              (fun x => decide (x.missing_count = c))))
    ∧ generateRecipeSuggestions
        [⟨1, [str "eggs", str "salt", str "pepper"]⟩,
         ⟨2, [str "eggs", str "milk", str "flour", str "sugar", str "yeast"]⟩]
        [str "eggs", str "milk", str "bread", str "butter"]
      = [⟨1, [str "eggs", str "salt", str "pepper"], 2, [str "salt", str "pepper"]⟩] := by
  haveI : IsTotal RecipeWithMissing missingLe :=
    ⟨fun a b => Nat.le_total a.missing_count b.missing_count⟩
  haveI : IsTrans RecipeWithMissing missingLe := ⟨fun _ _ _ => Nat.le_trans⟩
  refine ⟨fun recipes ingredients => ⟨?_, ?_, fun c => ?_⟩, by decide⟩
  · exact List.sorted_insertionSort missingLe _
  · exact List.perm_insertionSort missingLe _
  · exact filter_count_insertionSort c _

/-!
## Claim C8: deduplication
-/

theorem any_eq_decide_mem (n : Str) (seen : List Str) :
    (seen.any (fun s => decide (s = n))) = decide (n ∈ seen) := by
  rw [Bool.eq_iff_iff, List.any_eq_true, decide_eq_true_eq]
  constructor
  · rintro ⟨s, hs, he⟩
    rw [decide_eq_true_eq] at he
    exact he ▸ hs
  · intro h
    exact ⟨n, h, by simp⟩

theorem groupAny_eq_decide (n : Str) (seen : List Str) :
    (duplicateGroups.any (fun group =>
        group.any (fun m => decide (m = n)) &&
        group.any (fun m => seen.any (fun s => decide (s = m))))) =
      decide (∃ g ∈ duplicateGroups, n ∈ g ∧ ∃ m ∈ g, m ∈ seen) := by
  rw [Bool.eq_iff_iff, List.any_eq_true, decide_eq_true_eq]
  constructor
  · rintro ⟨g, hg, hb⟩
    rw [Bool.and_eq_true, List.any_eq_true, List.any_eq_true] at hb
    obtain ⟨⟨m1, hm1, he1⟩, m2, hm2, hs2⟩ := hb
    rw [decide_eq_true_eq] at he1
    rw [List.any_eq_true] at hs2
    obtain ⟨s, hs, he2⟩ := hs2
    rw [decide_eq_true_eq] at he2
    exact ⟨g, hg, he1 ▸ hm1, m2, hm2, he2 ▸ hs⟩
  · rintro ⟨g, hg, hn, m, hm, hs⟩
    refine ⟨g, hg, ?_⟩
    rw [Bool.and_eq_true, List.any_eq_true, List.any_eq_true]
    exact ⟨⟨n, hn, by simp⟩, m, hm, by rw [List.any_eq_true]; exact ⟨m, hs, by simp⟩⟩

theorem dedupGo_eq_spec (l : List Str) : ∀ seen, dedupGo seen l = dedupSpecGo seen l := by
  induction l with
  | nil => intro seen; rfl
  | cons x rest ih =>
    intro seen
    simp only [dedupGo, dedupSpecGo, any_eq_decide_mem, groupAny_eq_decide]
    by_cases hseen : trimN (lowerN x) ∈ seen
    · simp [hseen, ih]
    · by_cases hgrp : ∃ g ∈ duplicateGroups, trimN (lowerN x) ∈ g ∧ ∃ m ∈ g, m ∈ seen <;>
        simp [hseen, hgrp, ih]

/-- C8: `deduplicateIngredients` is total, keeps first-seen order dropping
exactly the elements whose normalized form (or an equivalence-group mate of
it) was already seen, and on the claim's example returns
`["lemon", "lime"]`. -/
theorem dedupe_spec :
    (∀ ingredients : List Str,
      deduplicateIngredients ingredients = dedupSpecGo [] ingredients)
    ∧ deduplicateIngredients [] = []
    ∧ deduplicateIngredients [str "lemon", str "lemons", str "lime"]
        = [str "lemon", str "lime"] := by
  exact ⟨fun l => dedupGo_eq_spec l [], rfl, by decide⟩

/-!
## Claim C6: validator behaviour
-/

/-- Boolean shape of the validator's if-chain versus the claim's flat
rejection formula, with the dietary branch present. -/
theorem validChain (A B C V W G Av Mv Gl : Bool) :
    (if A || !B then false
     else if C then false
     else
       if V && Av then false
       else if !V && W && Mv then false
       else if G && Gl then false
       else true) =
    !(A || !B || C || (V && Av) || (!V && W && Mv) || (G && Gl)) := by
  revert A B C V W G Av Mv Gl; decide

/-- Boolean shape of the validator's if-chain versus the claim's flat
rejection formula, with the dietary branch skipped. -/
theorem validChainNone (A B C Av Mv Gl : Bool) :
    (if A || !B then false
     else if C then false
     else true) =
    !(A || !B || C || (false && Av) || (!false && false && Mv) || (false && Gl)) := by
  revert A B C Av Mv Gl; decide

/-- C6: `isValidIngredient` equals the claim's rejection formula, and decides
the claim's six sample inputs as stated. -/
theorem isValid_spec :
    (∀ (ingredient : Str) (dietaryRestrictions : Option Str),
      isValidIngredient ingredient dietaryRestrictions =
        isValidSpec ingredient dietaryRestrictions)
    ∧ isValidIngredient (str "vegetables") none = false
    ∧ isValidIngredient (str "tomatoes") none = true
    ∧ isValidIngredient (str "a") none = false
    ∧ isValidIngredient (str "1234") none = false
    ∧ isValidIngredient (str "chicken breast") (some (str "vegan")) = false
    ∧ isValidIngredient (str "tofu") (some (str "vegan")) = true := by
  refine ⟨fun ingredient dr => ?_, by decide, by decide, by decide, by decide,
    by decide, by decide⟩
  match dr with
  | none => exact validChainNone _ _ _ _ _ _
  | some [] =>
    have hv : containsSeq (str "vegan") (lowerN []) = false := by decide
    have hw : containsSeq (str "vegetarian") (lowerN []) = false := by decide
    have hg : containsSeq (str "gluten-free") (lowerN []) = false := by decide
    show _ = isValidSpec ingredient (some [])
    unfold isValidSpec
    simp only [hv, hw, hg]
    exact validChainNone _ _ _ _ _ _
  | some (c :: cs) => exact validChain _ _ _ _ _ _ _ _ _

/-!
## Claim C10: final ingredient assembly of the handler
-/

theorem lexLe_total : ∀ a b : Str, lexLe a b = true ∨ lexLe b a = true := by
  intro a
  induction a with
  | nil => intro b; left; rfl
  | cons x xs ih =>
    intro b
    cases b with
    | nil => right; rfl
    | cons y ys =>
      simp only [lexLe]
      rcases Nat.lt_trichotomy x y with h | h | h
      · left; simp [h]
      · subst h; simpa [Nat.lt_irrefl] using ih ys
      · right; simp [h]

theorem lexLe_trans : ∀ a b c : Str, lexLe a b = true → lexLe b c = true → lexLe a c = true := by
  intro a
  induction a with
  | nil => intro b c _ _; rfl
  | cons x xs ih =>
    intro b c hab hbc
    cases b with
    | nil => simp [lexLe] at hab
    | cons y ys =>
      cases c with
      | nil => simp [lexLe] at hbc
      | cons z zs =>
        simp only [lexLe] at hab hbc ⊢
        by_cases h1 : x < y
        · by_cases h2 : y < z
          · simp [Nat.lt_trans h1 h2]
          · by_cases h3 : z < y
            · simp [h2, h3] at hbc
            · have hyz : y = z := by omega
              subst hyz; simp [h1]
        · by_cases h4 : y < x
          · simp [h1, h4] at hab
          · have hxy : x = y := by omega
            subst hxy
            simp only [Nat.lt_irrefl, if_false] at hab
            by_cases h2 : x < z
            · simp [h2]
            · by_cases h3 : z < x
              · simp [h2, h3] at hbc
              · have hxz : x = z := by omega
                subst hxz
                simp only [Nat.lt_irrefl, if_false] at hbc ⊢
                exact ih ys zs hab hbc

theorem mem_uniqFirst {x : Str} : ∀ {l : List Str}, x ∈ uniqFirst l ↔ x ∈ l := by
  intro l
  induction l with
  | nil => simp [uniqFirst]
  | cons a l ih =>
    simp only [uniqFirst, List.mem_cons, List.mem_filter, ih, decide_eq_true_eq]
    by_cases h : x = a
    · simp [h]
    · simp [h, ih]

theorem nodup_uniqFirst : ∀ l : List Str, (uniqFirst l).Nodup := by
  intro l
  induction l with
  | nil => exact List.nodup_nil
  | cons a l ih =>
    refine List.Nodup.cons ?_ (ih.filter _)
    intro hmem
    have := (List.mem_filter.mp hmem).2
    simp at this

/-- C10: for every flattened multiset of detected ingredients, the final
`ingredients` array always contains the four assumed staples, is sorted in
the default (code-unit lexicographic) string order, is duplicate-free, and
its members are exactly the union of the deduplicated detected ingredients
with the staples; with nothing detected it is the sorted staple list. -/
theorem handlerIngredients_spec :
    (∀ detected : List Str,
      (str "salt" ∈ handlerIngredients detected
        ∧ str "pepper" ∈ handlerIngredients detected
        ∧ str "olive oil" ∈ handlerIngredients detected
        ∧ str "water" ∈ handlerIngredients detected)
      ∧ List.Sorted lexLeP (handlerIngredients detected)
      ∧ (handlerIngredients detected).Nodup
      ∧ (∀ x : Str, x ∈ handlerIngredients detected ↔
          x ∈ deduplicateIngredients (uniqFirst detected) ∨ x ∈ assumedStaples))
    ∧ handlerIngredients []
        = [str "olive oil", str "pepper", str "salt", str "water"] := by
  haveI : IsTotal Str lexLeP := ⟨lexLe_total⟩
  haveI : IsTrans Str lexLeP := ⟨lexLe_trans⟩
  refine ⟨fun detected => ?_, by decide⟩
  have hmem : ∀ x : Str, x ∈ handlerIngredients detected ↔
      x ∈ deduplicateIngredients (uniqFirst detected) ∨ x ∈ assumedStaples := by
    intro x
    unfold handlerIngredients
    rw [List.mem_insertionSort, mem_uniqFirst, List.mem_append]
  refine ⟨⟨?_, ?_, ?_, ?_⟩, ?_, ?_, hmem⟩
  · exact (hmem _).mpr (Or.inr (by decide))
  · exact (hmem _).mpr (Or.inr (by decide))
  · exact (hmem _).mpr (Or.inr (by decide))
  · exact (hmem _).mpr (Or.inr (by decide))
  · exact List.sorted_insertionSort lexLeP _
  · exact ((List.perm_insertionSort lexLeP _).nodup_iff).mpr (nodup_uniqFirst _)

/-!
## Claim C1: vision response parsing
-/

theorem fallbackParse_eq_plain (textContent : Str) (dietaryRestrictions : Option Str) :
    fallbackParse textContent dietaryRestrictions =
      specFallbackPlain textContent dietaryRestrictions := by
  unfold fallbackParse specFallbackPlain
  rw [List.filter_filter]
  congr 1
  apply List.filter_congr
  intro a _
  exact Bool.and_comm _ _

/-- C1 (counterexample): on `"{}, eggs"` the span `{}` parses as JSON but has
neither confidence array, and the parser returns `[]` rather than the
claimed fallback result `["eggs"]`; on `"lemons, lemons!"` the fallback path
is taken but, contrary to the claim, nothing is deduplicated. -/
theorem visionParse_claim_counterexample :
    parseIngredientsFromResponse (str "{}, eggs") none = []
    ∧ specFallbackDedup (str "{}, eggs") none = [str "eggs"]
    ∧ parseIngredientsFromResponse (str "{}, eggs") none ≠
        specFallbackDedup (str "{}, eggs") none
    ∧ parseIngredientsFromResponse (str "lemons, lemons!") none
        = [str "lemons", str "lemons"]
    ∧ specFallbackDedup (str "lemons, lemons!") none = [str "lemons"]
    ∧ parseIngredientsFromResponse (str "lemons, lemons!") none ≠
        specFallbackDedup (str "lemons, lemons!") none := by
  exact ⟨by decide, by decide, by decide, by decide, by decide, by decide⟩

/-- C1 (amended): the parser is total; when no `{...}` span is found, the
span fails to JSON-parse, or reading the confidence arrays throws, it
returns the claim's comma-split fallback pipeline *without* deduplication;
when the span parses and the arrays are readable it returns exactly the
collected confidence items — the empty list when both arrays are absent —
and does not fall back. -/
theorem visionParse_amended (textContent : Str) (dietaryRestrictions : Option Str) :
    (fallbackParse textContent dietaryRestrictions =
      specFallbackPlain textContent dietaryRestrictions)
    ∧ (findSpan textContent = none →
        parseIngredientsFromResponse textContent dietaryRestrictions =
          specFallbackPlain textContent dietaryRestrictions)
    ∧ (∀ span, findSpan textContent = some span → jsonParse span = none →
        parseIngredientsFromResponse textContent dietaryRestrictions =
          specFallbackPlain textContent dietaryRestrictions)
    ∧ (∀ span jsonData, findSpan textContent = some span →
        jsonParse span = some jsonData →
        collectConfidenceItems jsonData dietaryRestrictions = none →
        parseIngredientsFromResponse textContent dietaryRestrictions =
          specFallbackPlain textContent dietaryRestrictions)
    ∧ (∀ span jsonData allItems, findSpan textContent = some span →
        jsonParse span = some jsonData →
        collectConfidenceItems jsonData dietaryRestrictions = some allItems →
        parseIngredientsFromResponse textContent dietaryRestrictions = allItems) := by
  refine ⟨fallbackParse_eq_plain _ _, ?_, ?_, ?_, ?_⟩
  · intro h
    simp only [parseIngredientsFromResponse, h, fallbackParse_eq_plain]
  · intro span h1 h2
    simp only [parseIngredientsFromResponse, h1, h2, fallbackParse_eq_plain]
  · intro span jsonData h1 h2 h3
    simp only [parseIngredientsFromResponse, h1, h2, h3, fallbackParse_eq_plain]
  · intro span jsonData allItems h1 h2 h3
    simp only [parseIngredientsFromResponse, h1, h2, h3]

/-- C1 (witness): the amended theorem applied to a plain comma list (fallback
path) and to a structured JSON response (collection path). -/
theorem visionParse_amended_witness :
    parseIngredientsFromResponse (str "no json here eggs, milk") none =
      specFallbackPlain (str "no json here eggs, milk") none
    ∧ parseIngredientsFromResponse
        (str "\x7b\"high_confidence\":[\x7b\"name\":\"Avocados\"\x7d]\x7d") none
      = [str "avocados"] := by
  constructor
  · exact (visionParse_amended (str "no json here eggs, milk") none).2.1 (by decide)
  · exact (visionParse_amended
      (str "\x7b\"high_confidence\":[\x7b\"name\":\"Avocados\"\x7d]\x7d") none).2.2.2.2
      (str "\x7b\"high_confidence\":[\x7b\"name\":\"Avocados\"\x7d]\x7d")
      (.jobj [(str "high_confidence", .jarr [.jobj [(str "name", .jstr (str "Avocados"))]])])
      [str "avocados"] (by decide) (by rfl) (by rfl)

/-!
## Claim C9: recipe response parsing
-/

theorem coerceRecipe_isSome_of_ne_null {v : JValue} (h : v ≠ .jnull) :
    ∃ g, coerceRecipe v = some g := by
  cases v with
  | jnull => exact absurd rfl h
  | jbool b => exact ⟨_, rfl⟩
  | jnum n => exact ⟨_, rfl⟩
  | jstr s => exact ⟨_, rfl⟩
  | jarr xs => exact ⟨_, rfl⟩
  | jobj fs => exact ⟨_, rfl⟩

theorem coerceRecipes_eq_none_iff (rs : List JValue) :
    coerceRecipes rs = none ↔ JValue.jnull ∈ rs := by
  induction rs with
  | nil => simp [coerceRecipes]
  | cons r rest ih =>
    by_cases h : r = .jnull
    · subst h
      simp [coerceRecipes, coerceRecipe]
    · obtain ⟨g, hg⟩ := coerceRecipe_isSome_of_ne_null h
      rw [coerceRecipes, hg]
      have hne : ¬ JValue.jnull = r := fun he => h he.symm
      cases hrest : coerceRecipes rest with
      | none =>
        simp only [List.mem_cons]
        exact iff_of_true trivial (Or.inr (ih.mp hrest))
      | some tail =>
        have hmem : JValue.jnull ∉ rest := fun hm => by
          rw [ih.mpr hm] at hrest; exact Option.noConfusion hrest
        simp only [List.mem_cons]
        constructor
        · intro hcon
          simp at hcon
        · rintro (he | hm)
          · exact absurd he hne
          · exact absurd hm hmem

theorem coerceRecipes_length {rs : List JValue} (h : JValue.jnull ∉ rs) :
    ∃ l, coerceRecipes rs = some l ∧ l.length = rs.length := by
  induction rs with
  | nil => exact ⟨[], rfl, rfl⟩
  | cons r rest ih =>
    have hr : r ≠ .jnull := fun he => h (he ▸ List.mem_cons_self r rest)
    obtain ⟨g, hg⟩ := coerceRecipe_isSome_of_ne_null hr
    obtain ⟨tail, htail, hlen⟩ := ih (fun hm => h (List.mem_cons_of_mem r hm))
    exact ⟨g :: tail, by rw [coerceRecipes, hg, htail], by simp [hlen]⟩

theorem parseRecipe_notArr {textContent span : Str} {parsedData fv : JValue}
    (hs : findSpan textContent = some span) (hj : jsonParse span = some parsedData)
    (hf : getField parsedData (str "recipes") = some fv)
    (harr : ∀ rs, fv ≠ .jarr rs) :
    parseRecipeResponse textContent = none := by
  cases fv with
  | jarr rs => exact absurd rfl (harr rs)
  | jnull => simp [parseRecipeResponse, hs, hj, hf]
  | jbool b => simp [parseRecipeResponse, hs, hj, hf]
  | jnum n => simp [parseRecipeResponse, hs, hj, hf]
  | jstr s => simp [parseRecipeResponse, hs, hj, hf]
  | jobj fs => simp [parseRecipeResponse, hs, hj, hf]

/-- C9 (counterexample): on `{"recipes":[null]}` a JSON span is found, it
parses, and `recipes` is an array — so by the claim the parser should return
one defaulted Recipe — yet it raises (the `null` entry's property access
throws a `TypeError`). -/
theorem recipeParse_claim_counterexample :
    findSpan (str "\x7b\"recipes\":[null]\x7d") = some (str "\x7b\"recipes\":[null]\x7d")
    ∧ jsonParse (str "\x7b\"recipes\":[null]\x7d")
        = some (.jobj [(str "recipes", .jarr [.jnull])])
    ∧ getField (.jobj [(str "recipes", .jarr [.jnull])]) (str "recipes")
        = some (.jarr [.jnull])
    ∧ parseRecipeResponse (str "\x7b\"recipes\":[null]\x7d") = none := by
  exact ⟨by decide, by rfl, by rfl, by rfl⟩

/-- C9 (amended): the parser raises exactly when no `{...}` span is found,
the span fails to parse, the `recipes` field is absent or not an array, or
some entry of `recipes` is `null`; otherwise it returns one coerced Recipe
per entry, with the stated defaults (all of them exhibited on the empty
object, and the claim's servings/difficulty example). -/
theorem recipeParse_amended (textContent : Str) :
    (parseRecipeResponse textContent = none ↔
      findSpan textContent = none
      ∨ (∃ span, findSpan textContent = some span ∧ jsonParse span = none)
      ∨ (∃ span parsedData, findSpan textContent = some span ∧
          jsonParse span = some parsedData ∧
          ∀ rs, getField parsedData (str "recipes") ≠ some (.jarr rs))
      ∨ (∃ span parsedData rs, findSpan textContent = some span ∧
          jsonParse span = some parsedData ∧
          getField parsedData (str "recipes") = some (.jarr rs) ∧
          JValue.jnull ∈ rs))
    ∧ (∀ span parsedData rs, findSpan textContent = some span →
        jsonParse span = some parsedData →
        getField parsedData (str "recipes") = some (.jarr rs) →
        parseRecipeResponse textContent = coerceRecipes rs
        ∧ (JValue.jnull ∉ rs →
            ∃ l, coerceRecipes rs = some l ∧ l.length = rs.length))
    ∧ coerceRecipe (.jobj []) = some
        { title := .jstr (str "Untitled Recipe")
          description := .jstr (str "")
          ingredients := []
          instructions := []
          prep_time := 15
          cook_time := 30
          servings := 4
          cuisine := [.jstr (str "International")]
          dietary_tags := []
          difficulty := str "medium"
          tips := none
          variations := none }
    ∧ (∃ g, coerceRecipe (.jobj [(str "title", .jstr (str "Tacos")),
          (str "difficulty", .jstr (str "extreme"))]) = some g
        ∧ g.servings = 4 ∧ g.difficulty = str "medium") := by
  refine ⟨⟨?_, ?_⟩, ?_, by rfl, ⟨_, rfl, rfl, by decide⟩⟩
  · -- parse = none → one of the four failure shapes
    intro hnone
    cases hs : findSpan textContent with
    | none => exact Or.inl rfl
    | some span =>
      cases hj : jsonParse span with
      | none => exact Or.inr (Or.inl ⟨span, rfl, hj⟩)
      | some parsedData =>
        cases hf : getField parsedData (str "recipes") with
        | none =>
          refine Or.inr (Or.inr (Or.inl ⟨span, parsedData, rfl, hj, ?_⟩))
          intro rs hcon
          rw [hf] at hcon
          exact Option.noConfusion hcon
        | some fv =>
          by_cases harr : ∃ rs, fv = .jarr rs
          · obtain ⟨rs, rfl⟩ := harr
            have hc : coerceRecipes rs = none := by
              have := hnone
              simp only [parseRecipeResponse, hs, hj, hf] at this
              exact this
            exact Or.inr (Or.inr (Or.inr ⟨span, parsedData, rs, rfl, hj, hf,
              (coerceRecipes_eq_none_iff rs).mp hc⟩))
          · refine Or.inr (Or.inr (Or.inl ⟨span, parsedData, rfl, hj, ?_⟩))
            intro rs hcon
            rw [hf, Option.some.injEq] at hcon
            exact harr ⟨rs, hcon⟩
  · -- each failure shape → parse = none
    rintro (h | ⟨span, hs, hj⟩ | ⟨span, parsedData, hs, hj, hne⟩ |
      ⟨span, parsedData, rs, hs, hj, hf, hmem⟩)
    · simp [parseRecipeResponse, h]
    · simp [parseRecipeResponse, hs, hj]
    · cases hf : getField parsedData (str "recipes") with
      | none => simp [parseRecipeResponse, hs, hj, hf]
      | some fv =>
        refine parseRecipe_notArr hs hj hf ?_
        intro rs hcon
        exact hne rs (by rw [hf, hcon])
    · simp only [parseRecipeResponse, hs, hj, hf]
      exact (coerceRecipes_eq_none_iff rs).mpr hmem
  · intro span parsedData rs h1 h2 h3
    refine ⟨?_, coerceRecipes_length⟩
    simp only [parseRecipeResponse, h1, h2, h3]

/-- C9 (witness): the amended theorem applied to a concrete well-formed
response with one `null`-free recipe entry. -/
theorem recipeParse_amended_witness :
    parseRecipeResponse (str "\x7b\"recipes\":[\x7b\"difficulty\":\"extreme\"\x7d]\x7d")
      = coerceRecipes [.jobj [(str "difficulty", .jstr (str "extreme"))]]
    ∧ (∃ l, coerceRecipes [JValue.jobj [(str "difficulty", .jstr (str "extreme"))]]
        = some l ∧ l.length = 1) := by
  have h := (recipeParse_amended (str "\x7b\"recipes\":[\x7b\"difficulty\":\"extreme\"\x7d]\x7d")).2.1
    (str "\x7b\"recipes\":[\x7b\"difficulty\":\"extreme\"\x7d]\x7d")
    (.jobj [(str "recipes", .jarr [.jobj [(str "difficulty", .jstr (str "extreme"))]])])
    [.jobj [(str "difficulty", .jstr (str "extreme"))]]
    (by decide) (by rfl) (by rfl)
  exact ⟨h.1, h.2 (by intro hm; simp at hm)⟩

/-!
## Character-level lemmas for the Normalizer (claims C5 and C7)
-/

theorem toLowerN_idem (c : Nat) : toLowerN (toLowerN c) = toLowerN c := by
  unfold toLowerN
  split_ifs <;> omega

theorem isAlphaN_toLowerN (c : Nat) : isAlphaN (toLowerN c) = isAlphaN c := by
  simp only [isAlphaN, toLowerN]
  split_ifs with h <;> first
  | rfl
  | (rw [decide_eq_decide]; omega)

theorem isSpaceN_of_isAlphaN {c : Nat} (h : isAlphaN c = true) : isSpaceN c = false := by
  simp only [isAlphaN, decide_eq_true_eq] at h
  simp only [isSpaceN, decide_eq_false_iff_not]
  omega

theorem isWordN_of_isAlphaN {c : Nat} (h : isAlphaN c = true) :
    (isWordN c || isSpaceN c) = true := by
  simp [isWordN, h]

theorem mapEqSelf {f : Nat → Nat} : ∀ {l : Str}, (∀ c ∈ l, f c = c) → l.map f = l := by
  intro l
  induction l with
  | nil => intro _; rfl
  | cons c rest ih =>
    intro h
    simp only [List.map_cons, h c (List.mem_cons_self c rest),
      ih (fun d hd => h d (List.mem_cons_of_mem c hd))]

theorem any_dropWhile_of_any {p q : Nat → Bool} :
    ∀ {l : Str}, l.any p = true → (∀ c, p c = true → q c = false) →
      (l.dropWhile q).any p = true := by
  intro l
  induction l with
  | nil => intro h _; simp at h
  | cons c rest ih =>
    intro h hpq
    rw [List.any_cons, Bool.or_eq_true] at h
    rw [List.dropWhile_cons]
    cases hq : q c with
    | true =>
      simp only [if_true]
      rcases h with hc | hrest
      · rw [hpq c hc] at hq; exact Bool.noConfusion hq
      · exact ih hrest hpq
    | false =>
      simp only [Bool.false_eq_true, if_false, List.any_cons, Bool.or_eq_true]
      exact h

theorem any_trimN_of_any {p : Nat → Bool} (hsp : ∀ c, p c = true → isSpaceN c = false)
    {l : Str} (h : l.any p = true) : (trimN l).any p = true := by
  unfold trimN
  rw [List.any_reverse]
  refine any_dropWhile_of_any ?_ hsp
  rw [List.any_reverse]
  exact any_dropWhile_of_any h hsp

theorem any_filter_of_any {p keep : Nat → Bool} :
    ∀ {l : Str}, l.any p = true → (∀ c, p c = true → keep c = true) →
      (l.filter keep).any p = true := by
  intro l
  induction l with
  | nil => intro h _; simp at h
  | cons c rest ih =>
    intro h hk
    rw [List.any_cons, Bool.or_eq_true] at h
    rw [List.filter_cons]
    rcases h with hc | hrest
    · rw [hk c hc]
      simp [hc]
    · cases hkc : keep c with
      | true => simp only [if_true, List.any_cons, ih hrest hk, Bool.or_true]
      | false => simpa using ih hrest hk

theorem any_collapseSpGo_of_any {l : Str} (h : l.any isAlphaN = true) :
    ∀ b, (collapseSpGo b l).any isAlphaN = true := by
  induction l with
  | nil => simp at h
  | cons c rest ih =>
    intro b
    rw [List.any_cons, Bool.or_eq_true] at h
    cases hsp : isSpaceN c with
    | true =>
      have hrest : rest.any isAlphaN = true := by
        rcases h with hc | hr
        · rw [isSpaceN_of_isAlphaN hc] at hsp; exact Bool.noConfusion hsp
        · exact hr
      cases b with
      | true => simpa [collapseSpGo, hsp] using ih hrest true
      | false =>
        simp only [collapseSpGo, hsp, if_true, Bool.false_eq_true, if_false,
          List.any_cons]
        rw [ih hrest true]
        simp
    | false =>
      simp only [collapseSpGo, hsp, Bool.false_eq_true, if_false, List.any_cons]
      rcases h with hc | hr
      · simp [hc]
      · rw [ih hr false]
        simp

theorem mem_collapseSpGo {c : Nat} :
    ∀ {l : Str} {b : Bool}, c ∈ collapseSpGo b l → c = 32 ∨ c ∈ l := by
  intro l
  induction l with
  | nil => intro b h; simp [collapseSpGo] at h
  | cons d rest ih =>
    intro b h
    cases hsp : isSpaceN d with
    | true =>
      cases b with
      | true =>
        rw [collapseSpGo, hsp, if_pos rfl, if_pos rfl] at h
        rcases ih h with h32 | hm
        · exact Or.inl h32
        · exact Or.inr (List.mem_cons_of_mem d hm)
      | false =>
        rw [collapseSpGo, hsp, if_pos rfl, if_neg (by simp)] at h
        rcases List.mem_cons.mp h with h32 | hm
        · exact Or.inl h32
        · rcases ih hm with h32 | hm'
          · exact Or.inl h32
          · exact Or.inr (List.mem_cons_of_mem d hm')
    | false =>
      rw [collapseSpGo, hsp, if_neg (by simp)] at h
      rcases List.mem_cons.mp h with he | hm
      · exact Or.inr (he ▸ List.mem_cons_self d rest)
      · rcases ih hm with h32 | hm'
        · exact Or.inl h32
        · exact Or.inr (List.mem_cons_of_mem d hm')

theorem mem_trimN {c : Nat} {l : Str} (h : c ∈ trimN l) : c ∈ l := by
  unfold trimN at h
  rw [List.mem_reverse] at h
  have h2 := (List.dropWhile_sublist (l := (l.dropWhile isSpaceN).reverse) isSpaceN).mem h
  rw [List.mem_reverse] at h2
  exact (List.dropWhile_sublist isSpaceN).mem h2

theorem mem_cleanIngredient {c : Nat} {s : Str} (h : c ∈ cleanIngredient s) :
    c = 32 ∨ ∃ d ∈ s, c = toLowerN d := by
  unfold cleanIngredient collapseSp at h
  rcases mem_collapseSpGo h with h32 | hm
  · exact Or.inl h32
  · have hm2 : c ∈ trimN (lowerN s) := (List.mem_filter.mp hm).1
    have hm3 : c ∈ lowerN s := mem_trimN hm2
    rcases List.mem_map.mp hm3 with ⟨d, hd, he⟩
    exact Or.inr ⟨d, hd, he.symm⟩

theorem lowerN_cleanIngredient (s : Str) :
    lowerN (cleanIngredient s) = cleanIngredient s := by
  apply mapEqSelf
  intro c hc
  rcases mem_cleanIngredient hc with h32 | ⟨d, _, he⟩
  · subst h32; rfl
  · subst he; exact toLowerN_idem d

theorem stripPunct_cleanIngredient (s : Str) :
    stripPunct (cleanIngredient s) = cleanIngredient s := by
  apply List.filter_eq_self.mpr
  intro c hc
  unfold cleanIngredient collapseSp at hc
  rcases mem_collapseSpGo hc with h32 | hm
  · subst h32; simp [isWordN, isSpaceN]
  · unfold stripPunct at hm
    have hp := List.of_mem_filter hm
    simpa using hp

theorem collapseSpGo_idem (l : Str) :
    ∀ b, collapseSpGo b (collapseSpGo b l) = collapseSpGo b l := by
  induction l with
  | nil => intro b; rfl
  | cons c rest ih =>
    intro b
    have h32 : isSpaceN 32 = true := rfl
    cases hsp : isSpaceN c with
    | true =>
      cases b with
      | true =>
        rw [collapseSpGo, hsp, if_pos rfl, if_pos rfl]
        exact ih true
      | false =>
        rw [collapseSpGo, hsp, if_pos rfl, if_neg (by simp)]
        rw [collapseSpGo, h32, if_pos rfl, if_neg (by simp)]
        rw [ih true]
    | false =>
      rw [collapseSpGo, hsp]
      simp only [Bool.false_eq_true, if_false]
      rw [collapseSpGo, hsp]
      simp only [Bool.false_eq_true, if_false]
      rw [ih false]

theorem collapseSp_cleanIngredient (s : Str) :
    collapseSp (cleanIngredient s) = cleanIngredient s := by
  unfold cleanIngredient collapseSp
  exact collapseSpGo_idem _ false

/-- If the cleaned form of a cleaned string is already trimmed, cleaning is
idempotent on it. -/
theorem cleanIngredient_fixed {s : Str}
    (htrim : trimN (cleanIngredient s) = cleanIngredient s) :
    cleanIngredient (cleanIngredient s) = cleanIngredient s := by
  conv_lhs => rw [cleanIngredient, lowerN_cleanIngredient, htrim,
    stripPunct_cleanIngredient, collapseSp_cleanIngredient]

theorem applyTable_eq_or_mem (s : Str) :
    applyTable s = s ∨ applyTable s ∈ normalizations.map Prod.snd := by
  unfold applyTable
  cases hf : normalizations.find?
      (fun kv => decide (s = kv.1) || containsSeq kv.1 s) with
  | none => exact Or.inl rfl
  | some kv =>
    exact Or.inr (List.mem_map.mpr ⟨kv, List.mem_of_find?_eq_some hf, rfl⟩)

theorem any_lowerN (t : Str) : (lowerN t).any isAlphaN = t.any isAlphaN := by
  induction t with
  | nil => rfl
  | cons c rest ih =>
    simp only [lowerN, List.map_cons, List.any_cons] at ih ⊢
    rw [isAlphaN_toLowerN, ih]

theorem isValid_hasAlpha {t : Str} {dr : Option Str}
    (h : isValidIngredient t dr = true) : t.any isAlphaN = true := by
  by_contra ha
  rw [Bool.not_eq_true] at ha
  simp only [isValidIngredient, ha, Bool.not_false, Bool.or_true, if_true] at h
  exact Bool.noConfusion h

theorem isValid_not_blocked {t : Str} {dr : Option Str}
    (h : isValidIngredient t dr = true) :
    blockedTerms.any (fun b => decide (trimN (lowerN t) = b)) = false := by
  by_contra hb
  rw [Bool.not_eq_false] at hb
  simp only [isValidIngredient, hb] at h
  split_ifs at h

/-!
## Claim C5: the canonical-ingredient invariant
-/

/-- C5 (counterexample): `"vegetables!"` passes the Validator (its raw form
is not a blocked term), yet its normalization strips the punctuation and
yields exactly the blocked generic term `"vegetables"`. -/
theorem normalize_invariant_counterexample :
    isValidIngredient (str "vegetables!") none = true
    ∧ normalizeIngredient (str "vegetables!") = str "vegetables"
    ∧ str "vegetables" ∈ blockedTerms := by
  exact ⟨by decide, by decide, by decide⟩

/-- C5 (amended): for every `t` accepted by the Validator (no dietary
restrictions), `normalize(t)` is non-empty and contains an alphabetic
character; the blocklist part of the invariant holds only for inputs that
normalization leaves unchanged. -/
theorem normalize_invariant_amended (t : Str)
    (h : isValidIngredient t none = true) :
    normalizeIngredient t ≠ []
    ∧ (normalizeIngredient t).any isAlphaN = true
    ∧ (normalizeIngredient t = t → t ∉ blockedTerms) := by
  have halpha : t.any isAlphaN = true := isValid_hasAlpha h
  have hclean : (cleanIngredient t).any isAlphaN = true := by
    unfold cleanIngredient collapseSp
    apply any_collapseSpGo_of_any
    apply any_filter_of_any
    · refine any_trimN_of_any (fun c hc => isSpaceN_of_isAlphaN hc) ?_
      rw [any_lowerN]
      exact halpha
    · exact fun c hc => isWordN_of_isAlphaN hc
  have hnorm : (normalizeIngredient t).any isAlphaN = true := by
    unfold normalizeIngredient
    rcases applyTable_eq_or_mem (cleanIngredient t) with he | hm
    · rw [he]; exact hclean
    · have hv : ∀ v ∈ normalizations.map Prod.snd, v.any isAlphaN = true := by decide
      exact hv _ hm
  refine ⟨?_, hnorm, ?_⟩
  · intro hnil
    rw [hnil] at hnorm
    simp at hnorm
  · intro heq hbl
    rcases applyTable_eq_or_mem (cleanIngredient t) with he | hm
    · have h1 : normalizeIngredient t = cleanIngredient t := by
        rw [normalizeIngredient, he]
      have hct : cleanIngredient t = t := by rw [← h1, heq]
      have hlow : lowerN t = t := by
        conv_lhs => rw [← hct, lowerN_cleanIngredient, hct]
      have hnb := isValid_not_blocked h
      have hnb' : trimN (lowerN t) ∉ blockedTerms := by
        intro hmem
        have hany : blockedTerms.any (fun b => decide (trimN (lowerN t) = b)) = true :=
          List.any_eq_true.mpr ⟨_, hmem, by simp⟩
        rw [hnb] at hany
        exact Bool.noConfusion hany
      rw [hlow] at hnb'
      have htr : ∀ b ∈ blockedTerms, trimN b = b := by decide
      exact hnb' (by rw [htr t hbl]; exact hbl)
    · have hv : ∀ v ∈ normalizations.map Prod.snd, v ∉ blockedTerms := by decide
      rw [normalizeIngredient] at heq
      exact hv t (heq ▸ hm) hbl

/-- C5 (witness): the amended invariant instantiated at `"tomatoes"`, with
every hypothesis discharged concretely. -/
theorem normalize_invariant_witness :
    normalizeIngredient (str "tomatoes") ≠ []
    ∧ (normalizeIngredient (str "tomatoes")).any isAlphaN = true
    ∧ str "tomatoes" ∉ blockedTerms := by
  refine ⟨(normalize_invariant_amended (str "tomatoes") (by decide)).1,
    (normalize_invariant_amended (str "tomatoes") (by decide)).2.1,
    (normalize_invariant_amended (str "tomatoes") (by decide)).2.2 (by decide)⟩

/-!
## Claim C7: idempotence of normalization
-/

/-- C7 (counterexample): `"! a"` passes the Validator, but because the JS
code trims *before* stripping punctuation, `normalize("! a") = " a"` keeps a
leading space and a second normalization removes it:
`normalize(normalize("! a")) = "a" ≠ normalize("! a")`. -/
theorem normalize_idem_counterexample :
    isValidIngredient (str "! a") none = true
    ∧ normalizeIngredient (str "! a") = str " a"
    ∧ normalizeIngredient (normalizeIngredient (str "! a")) = str "a"
    ∧ normalizeIngredient (normalizeIngredient (str "! a")) ≠
        normalizeIngredient (str "! a") := by
  exact ⟨by decide, by decide, by decide, by decide⟩

/-- C7 (amended): normalization is idempotent on every Validator-accepted
input whose normalized form carries no leading or trailing whitespace. -/
theorem normalize_idem_amended (x : Str)
    (hv : isValidIngredient x none = true)
    (ht : trimN (normalizeIngredient x) = normalizeIngredient x) :
    normalizeIngredient (normalizeIngredient x) = normalizeIngredient x := by
  cases hf : normalizations.find?
      (fun kv => decide (cleanIngredient x = kv.1) ||
        containsSeq kv.1 (cleanIngredient x)) with
  | none =>
    have hA : normalizeIngredient x = cleanIngredient x := by
      simp only [normalizeIngredient, applyTable, hf]
    rw [hA] at ht ⊢
    have hcc : cleanIngredient (cleanIngredient x) = cleanIngredient x :=
      cleanIngredient_fixed ht
    simp only [normalizeIngredient, hcc, applyTable, hf]
  | some kv =>
    have hA : normalizeIngredient x = kv.2 := by
      simp only [normalizeIngredient, applyTable, hf]
    have hval : ∀ v ∈ normalizations.map Prod.snd, normalizeIngredient v = v := by
      decide
    rw [hA]
    exact hval kv.2 (List.mem_map.mpr ⟨kv, List.mem_of_find?_eq_some hf, rfl⟩)

/-- C7 (witness): the amended idempotence instantiated at `"tomato!"`
(normalized to `"tomatoes"` through the singular/plural rule). -/
theorem normalize_idem_witness :
    normalizeIngredient (normalizeIngredient (str "tomato!")) =
      normalizeIngredient (str "tomato!") :=
  normalize_idem_amended (str "tomato!") (by decide) (by decide)

example : str "abc" = [97, 98, 99] := by decide
example : trimN (str "  ab ") = str "ab" := by decide
example : collapseSp (str "a   b") = str "a b" := by decide
example : containsSeq (str "bc") (str "abcd") = true := by decide
example : containsSeq (str "ca") (str "abcd") = false := by decide
example : lowerN (str "AbC!") = str "abc!" := by decide
example : normalizeIngredient (str "Tomato!") = str "tomatoes" := by decide
example : normalizeIngredient (str "! a") = str " a" := by decide
example : isValidIngredient (str "vegetables") none = false := by decide
example : isValidIngredient (str "tomatoes") none = true := by decide
example : isValidIngredient (str "chicken breast") (some (str "vegan")) = false := by decide
example : isValidIngredient (str "tofu") (some (str "vegan")) = true := by decide
example : deduplicateIngredients [str "lemon", str "lemons", str "lime"]
    = [str "lemon", str "lime"] := by decide

end FoodAtHome
